/-
Verification of the interaction-automation engine (group discovery, session
store, group manager, alert monitor, orchestrator) against its specification.

The TypeScript sources are shallowly embedded: strings are `String`/`List Char`,
JS numbers are `ℕ`/`ℤ`/`ℚ` as appropriate, page state and other external
effects are explicit inputs, and each method becomes a total Lean function
mirroring the source control flow.
-/
import Mathlib

/-! ### JavaScript string primitives used by the sources -/

/-- ASCII model of `String.prototype.toLowerCase`. -/
def jsToLower (s : List Char) : List Char := s.map Char.toLower

/-- `startsWithCh needle hay`: `hay` begins with `needle` (character-wise). -/
def startsWithCh : List Char → List Char → Bool
  | [], _ => true
  | _ :: _, [] => false
  | a :: as, b :: bs => a == b && startsWithCh as bs

/-- Model of `String.prototype.includes`: `needle` occurs contiguously in `hay`. -/
def containsSub (needle : List Char) : List Char → Bool
  | [] => needle.isEmpty
  | c :: rest => startsWithCh needle (c :: rest) || containsSub needle rest

/-- Model of `String.prototype.trim`: strip whitespace from both ends. -/
def jsTrim (s : List Char) : List Char :=
  ((s.dropWhile Char.isWhitespace).reverse.dropWhile Char.isWhitespace).reverse

/-- Numeric value of a digit string (most significant first). -/
def digitsToNat (ds : List Char) : ℕ :=
  ds.foldl (fun n c => 10 * n + (c.toNat - 48)) 0

/-- Model of `parseFloat` on strings made of digits and dots (the only inputs
the sources feed it, after `replace(/[^0-9.]/g, '')`): the longest prefix of
shape `digits`, `digits.digits`, `.digits` or `digits.`; `none` models `NaN`. -/
def jsParseFloat (s : List Char) : Option ℚ :=
  let ip := s.takeWhile Char.isDigit
  match s.dropWhile Char.isDigit with
  | '.' :: rest2 =>
      let fp := rest2.takeWhile Char.isDigit
      if ip.isEmpty && fp.isEmpty then none
      else some ((digitsToNat ip : ℚ) + (digitsToNat fp : ℚ) / (10 : ℚ) ^ fp.length)
  | _ => if ip.isEmpty then none else some (digitsToNat ip)

/-- Model of `parseInt` (base 10): optional sign then leading digits; `none`
models `NaN`. -/
def jsParseInt (s : List Char) : Option ℤ :=
  let core : List Char → Option ℤ := fun t =>
    let ds := t.takeWhile Char.isDigit
    if ds.isEmpty then none else some (digitsToNat ds : ℤ)
  match s.dropWhile Char.isWhitespace with
  | '-' :: t => (core t).map (fun n => -n)
  | '+' :: t => core t
  | t => core t

/-! ### GroupDiscovery (src/lib/alert-system.ts) -/

/-- `GroupInfo` record produced by the discovery pass. -/
structure GroupInfo where
  url : String
  name : String
  memberCount : ℕ
  isJoined : Bool
  relevanceScore : ℕ
deriving DecidableEq

/-- `GroupDiscovery.parseMemberCount`: lowercase the text, pick a multiplier
(1000 when a `k` occurs, overridden to 1000000 when an `m` occurs), strip all
characters but digits and dots, `parseFloat`, and floor the scaled value;
`0` on empty text or `NaN`. -/
def parseMemberCount (text : String) : ℤ :=
  if text.isEmpty then 0
  else
    let textLower := jsToLower text.toList
    let multK : ℕ := if containsSub ['k'] textLower then 1000 else 1
    let multiplier : ℕ := if containsSub ['m'] textLower then 1000000 else multK
    let num := jsParseFloat (text.toList.filter (fun c => c.isDigit || c == '.'))
    match num with
    | none => 0
    | some q => ⌊q * (multiplier : ℚ)⌋

/-- `GroupDiscovery.calculateRelevanceScore`: +50 when the lowercased name
contains the whole lowercased keyword, +10 per space-separated keyword word
contained in the name, +20 when memberCount > 50000 else +10 when
memberCount > 10000, capped at 100. -/
def calculateRelevanceScore (group : GroupInfo) (keyword : String) : ℕ :=
  let name := jsToLower group.name.toList
  let kw := jsToLower keyword.toList
  let score1 : ℕ := if containsSub kw name then 0 + 50 else 0
  let score2 := (List.splitOn ' ' kw).foldl
    (fun s w => if containsSub w name then s + 10 else s) score1
  let score3 :=
    if group.memberCount > 50000 then score2 + 20
    else if group.memberCount > 10000 then score2 + 10
    else score2
  min score3 100

/-- `GroupDiscovery.removeDuplicateGroups` body: `groups.filter` with a closed
over `seen` set of URLs, made explicit as an accumulator. -/
def removeDuplicateGroupsAux (seen : List String) : List GroupInfo → List GroupInfo
  | [] => []
  | g :: gs =>
      if g.url ∈ seen then removeDuplicateGroupsAux seen gs
      else g :: removeDuplicateGroupsAux (g.url :: seen) gs

/-- `GroupDiscovery.removeDuplicateGroups`: drop every group whose URL was
already seen earlier in the list. -/
def removeDuplicateGroups (groups : List GroupInfo) : List GroupInfo :=
  removeDuplicateGroupsAux [] groups

/-- Spec-side reading of the dedup contract: keep each list head and recurse on
the tail with every later candidate of the same URL removed. -/
def keepFirstByUrl : List GroupInfo → List GroupInfo
  | [] => []
  | g :: gs => g :: keepFirstByUrl (gs.filter (fun h2 => h2.url ≠ g.url))
  termination_by l => l.length
  decreasing_by simpa using Nat.lt_succ_of_le (List.length_filter_le _ _)

/-! ### Lemmas about the discovery functions -/

theorem foldl_score_eq (p : List Char → Bool) (ws : List (List Char)) :
    ∀ s : ℕ, ws.foldl (fun acc w => if p w then acc + 10 else acc) s
      = s + 10 * ws.countP p := by
  induction ws with
  | nil => intro s; simp
  | cons w ws ih =>
      intro s
      by_cases h : p w <;> (simp [List.countP_cons, h, ih]; try omega)

theorem removeDuplicateGroupsAux_eq (l : List GroupInfo) :
    ∀ seen : List String,
      removeDuplicateGroupsAux seen l
        = keepFirstByUrl (l.filter (fun g => g.url ∉ seen)) := by
  induction l with
  | nil => intro seen; simp [removeDuplicateGroupsAux, keepFirstByUrl]
  | cons g gs ih =>
      intro seen
      by_cases h : g.url ∈ seen
      · simp [removeDuplicateGroupsAux, h, ih]
      · have hf : (gs.filter (fun h2 => decide (h2.url ∉ seen))).filter
            (fun h2 => decide (h2.url ≠ g.url))
            = gs.filter (fun h2 => decide (h2.url ∉ g.url :: seen)) := by
          rw [List.filter_filter]
          apply List.filter_congr
          intro a _
          simp [List.mem_cons, not_or, Bool.decide_and, Bool.and_comm]
        simp only [removeDuplicateGroupsAux, if_neg h, ih, List.filter_cons,
          decide_eq_true_eq]
        rw [if_pos h]
        simp only [keepFirstByUrl]
        rw [hf]

theorem removeDuplicateGroupsAux_sublist (l : List GroupInfo) :
    ∀ seen : List String, (removeDuplicateGroupsAux seen l).Sublist l := by
  induction l with
  | nil => intro seen; simp [removeDuplicateGroupsAux]
  | cons g gs ih =>
      intro seen
      by_cases h : g.url ∈ seen
      · simpa [removeDuplicateGroupsAux, h] using (ih seen).cons g
      · simpa [removeDuplicateGroupsAux, h] using (ih (g.url :: seen)).cons₂ g

/-! ### Claim theorems C1 - C3 -/

/-- C1: contrary to the documented parsing, `"1.2K members"` is scaled by the
million multiplier — the letter `m` of the word `members` matches the `m`
check, overriding the `k` multiplier — so the code returns 1200000 where the
spec (and the function's own intent, visible on the suffix-only input
`"1.2K"`) demands 1200.  `"3M members"` and `"members"` behave as specified. -/
theorem parseMemberCount_member_word_bug :
    parseMemberCount "1.2K members" = 1200000 ∧
    parseMemberCount "1.2K members" ≠ 1200 ∧
    parseMemberCount "3M members" = 3000000 ∧
    parseMemberCount "members" = 0 ∧
    parseMemberCount "1.2K" = 1200 := by
  refine ⟨?_, ?_, ?_, ?_, ?_⟩
  · show (⌊(((1 : ℕ) : ℚ) + ((2 : ℕ) : ℚ) / (10 : ℚ) ^ (1 : ℕ)) * ((1000000 : ℕ) : ℚ)⌋ : ℤ)
      = 1200000
    norm_num
  · show (⌊(((1 : ℕ) : ℚ) + ((2 : ℕ) : ℚ) / (10 : ℚ) ^ (1 : ℕ)) * ((1000000 : ℕ) : ℚ)⌋ : ℤ)
      ≠ 1200
    norm_num
  · show (⌊((3 : ℕ) : ℚ) * ((1000000 : ℕ) : ℚ)⌋ : ℤ) = 3000000
    norm_num
  · rfl
  · show (⌊(((1 : ℕ) : ℚ) + ((2 : ℕ) : ℚ) / (10 : ℚ) ^ (1 : ℕ)) * ((1000 : ℕ) : ℚ)⌋ : ℤ)
      = 1200
    norm_num

/-- C2: the relevance score is 50 for a full keyword match in the lowercased
name, plus 10 per space-separated keyword word contained in the name, plus 20
when memberCount > 50000 (else 10 when memberCount > 10000), capped at 100;
name "Web Development Group", keyword "web development", memberCount 60000
scores exactly 90. -/
theorem calculateRelevanceScore_formula :
    (∀ (g : GroupInfo) (kw : String),
      calculateRelevanceScore g kw =
        min ((if containsSub (jsToLower kw.toList) (jsToLower g.name.toList) then 50 else 0)
          + 10 * ((List.splitOn ' ' (jsToLower kw.toList)).countP
              (fun w => containsSub w (jsToLower g.name.toList)))
          + (if g.memberCount > 50000 then 20
             else if g.memberCount > 10000 then 10 else 0)) 100)
    ∧ calculateRelevanceScore
        { url := "", name := "Web Development Group", memberCount := 60000,
          isJoined := false, relevanceScore := 0 } "web development" = 90 := by
  constructor
  · intro g kw
    simp only [calculateRelevanceScore]
    rw [foldl_score_eq]
    split_ifs <;> omega
  · decide

/-- C3: `removeDuplicateGroups` keeps exactly the first occurrence of each URL
(dropping every later candidate with the same URL regardless of its other
fields) and the kept candidates appear in input encounter order (the result is
a sublist of the input). -/
theorem removeDuplicateGroups_first_occurrence (groups : List GroupInfo) :
    removeDuplicateGroups groups = keepFirstByUrl groups ∧
    (removeDuplicateGroups groups).Sublist groups := by
  constructor
  · rw [removeDuplicateGroups, removeDuplicateGroupsAux_eq]
    congr 1
    refine List.filter_eq_self.mpr ?_
    intro a _
    simp
  · exact removeDuplicateGroupsAux_sublist groups []

/-! ### GroupSelector (src/lib/group-selector.ts) -/

/-- `indices.add(i)` on a JS `Set`: append unless already present. -/
def addIdx (acc : List ℤ) (n : ℤ) : List ℤ :=
  if n ∈ acc then acc else acc ++ [n]

/-- `for (let i = start; i <= end; i++) indices.add(i)`. -/
def rangeAdd (acc : List ℤ) (s e : ℤ) : List ℤ :=
  (List.range ((e - s).toNat + 1)).foldl (fun a (j : ℕ) => addIdx a (s + (j : ℤ))) acc

/-- One loop iteration of `GroupSelector.parseSelection`: a part containing a
dash is parsed as a range (both bounds truthy, ordered and within
`1..maxIndex`), any other part as a single truthy number in `1..maxIndex`;
everything else contributes nothing. -/
def parseSelectionStep (maxIndex : ℕ) (acc : List ℤ) (part : List Char) : List ℤ :=
  if part.contains '-' then
    match (List.splitOn '-' part).map (fun num => jsParseInt (jsTrim num)) with
    | some s :: some e :: _ =>
        if s ≠ 0 ∧ e ≠ 0 ∧ s ≤ e ∧ 1 ≤ s ∧ e ≤ (maxIndex : ℤ) then rangeAdd acc s e
        else acc
    | _ => acc
  else
    match jsParseInt part with
    | some n => if n ≠ 0 ∧ 1 ≤ n ∧ n ≤ (maxIndex : ℤ) then addIdx acc n else acc
    | none => acc

/-- `GroupSelector.parseSelection`: split the input on commas, trim each part,
collect selected indices into a set, and return them sorted ascending. -/
def parseSelection (input : String) (maxIndex : ℕ) : List ℤ :=
  let parts := (List.splitOn ',' input.toList).map jsTrim
  let indices := parts.foldl (parseSelectionStep maxIndex) []
  List.insertionSort (· ≤ ·) indices

/-! ### Lemmas about parseSelection -/

theorem mem_addIdx {acc : List ℤ} {n x : ℤ} (h : x ∈ addIdx acc n) :
    x ∈ acc ∨ x = n := by
  unfold addIdx at h
  split at h
  · exact Or.inl h
  · simpa using h

theorem nodup_addIdx {acc : List ℤ} (h : acc.Nodup) (n : ℤ) :
    (addIdx acc n).Nodup := by
  unfold addIdx
  split
  · exact h
  · next hn => simpa [List.nodup_append, h] using hn

theorem mem_foldl_addIdx (f : ℕ → ℤ) (js : List ℕ) :
    ∀ (acc : List ℤ) (x : ℤ),
      x ∈ js.foldl (fun a j => addIdx a (f j)) acc → x ∈ acc ∨ ∃ j ∈ js, x = f j := by
  induction js with
  | nil => intro acc x h; exact Or.inl h
  | cons j js ih =>
      intro acc x h
      rcases ih _ x h with h1 | ⟨j2, hj2, rfl⟩
      · rcases mem_addIdx h1 with h2 | rfl
        · exact Or.inl h2
        · exact Or.inr ⟨j, by simp⟩
      · exact Or.inr ⟨j2, by simp [hj2]⟩

theorem nodup_foldl_addIdx (f : ℕ → ℤ) (js : List ℕ) :
    ∀ acc : List ℤ, acc.Nodup → (js.foldl (fun a j => addIdx a (f j)) acc).Nodup := by
  induction js with
  | nil => intro acc h; exact h
  | cons j js ih => intro acc h; exact ih _ (nodup_addIdx h (f j))

theorem mem_parseSelectionStep {maxIndex : ℕ} {acc : List ℤ} {part : List Char}
    {x : ℤ} (h : x ∈ parseSelectionStep maxIndex acc part) :
    x ∈ acc ∨ (1 ≤ x ∧ x ≤ (maxIndex : ℤ)) := by
  unfold parseSelectionStep at h
  split at h
  · split at h
    · next s e _ =>
        split at h
        · next hc =>
            unfold rangeAdd at h
            rcases mem_foldl_addIdx _ _ _ _ h with h1 | ⟨j, hj, rfl⟩
            · exact Or.inl h1
            · right
              simp only [List.mem_range] at hj
              obtain ⟨_, _, hse, hs1, hemax⟩ := hc
              constructor <;> omega
        · exact Or.inl h
    · exact Or.inl h
  · split at h
    · next n _ =>
        split at h
        · next hc =>
            rcases mem_addIdx h with h1 | rfl
            · exact Or.inl h1
            · exact Or.inr ⟨hc.2.1, hc.2.2⟩
        · exact Or.inl h
    · exact Or.inl h

theorem nodup_parseSelectionStep {maxIndex : ℕ} {acc : List ℤ} (part : List Char)
    (h : acc.Nodup) : (parseSelectionStep maxIndex acc part).Nodup := by
  unfold parseSelectionStep
  split
  · split
    · split
      · unfold rangeAdd; exact nodup_foldl_addIdx _ _ _ h
      · exact h

    · exact h
  · split
    · split
      · exact nodup_addIdx h _
      · exact h
    · exact h

theorem mem_foldl_parseSelectionStep (maxIndex : ℕ) (parts : List (List Char)) :
    ∀ (acc : List ℤ) (x : ℤ),
      x ∈ parts.foldl (parseSelectionStep maxIndex) acc →
        x ∈ acc ∨ (1 ≤ x ∧ x ≤ (maxIndex : ℤ)) := by
  induction parts with
  | nil => intro acc x h; exact Or.inl h
  | cons p ps ih =>
      intro acc x h
      rcases ih _ x h with h1 | h2
      · rcases mem_parseSelectionStep h1 with h3 | h4
        · exact Or.inl h3
        · exact Or.inr h4
      · exact Or.inr h2

theorem nodup_foldl_parseSelectionStep (maxIndex : ℕ) (parts : List (List Char)) :
    ∀ acc : List ℤ, acc.Nodup →
      (parts.foldl (parseSelectionStep maxIndex) acc).Nodup := by
  induction parts with
  | nil => intro acc h; exact h
  | cons p ps ih => intro acc h; exact ih _ (nodup_parseSelectionStep p h)

/-- C10: for every input string and bound, `parseSelection` returns a strictly
ascending, duplicate-free list of integers between 1 and `maxIndex` inclusive;
malformed, zero, negative, or out-of-range tokens contribute nothing (the
function is total, so no input raises). -/
theorem parseSelection_sorted_in_range (input : String) (maxIndex : ℕ) :
    List.Sorted (· < ·) (parseSelection input maxIndex) ∧
    ∀ x ∈ parseSelection input maxIndex, 1 ≤ x ∧ x ≤ (maxIndex : ℤ) := by
  unfold parseSelection
  set L := ((List.splitOn ',' input.toList).map jsTrim).foldl
    (parseSelectionStep maxIndex) [] with hL
  have hperm : List.Perm (List.insertionSort (· ≤ ·) L) L := List.perm_insertionSort _ L
  have hnd : (List.insertionSort (· ≤ ·) L).Nodup :=
    hperm.nodup_iff.mpr (nodup_foldl_parseSelectionStep _ _ _ List.nodup_nil)
  constructor
  · have hs : List.Sorted (· ≤ ·) (List.insertionSort (· ≤ ·) L) :=
      List.sorted_insertionSort _ L
    exact List.Pairwise.imp (fun hab => lt_of_le_of_ne hab.1 hab.2)
      (List.Pairwise.and hs hnd)
  · intro x hx
    have hx2 : x ∈ L := hperm.mem_iff.mp hx
    rcases mem_foldl_parseSelectionStep _ _ _ _ hx2 with h1 | h2
    · simp at h1
    · exact h2

/-! ### SessionManager (src/lib/session-manager.ts) -/

/-- Durable session record (`fb-session.json`); cookies and storage entries are
opaque at this level, the timestamp is `new Date(...).getTime()` in ms. -/
structure SessionData where
  cookies : List String
  localStorage : List (String × String)
  sessionStorage : List (String × String)
  url : String
  timestamp : ℤ
  userAgent : String
deriving DecidableEq

/-- Effects `loadSession` performs against the browser, in program order. -/
inductive SessionAction
  | addCookies
  | gotoFacebook
  | setLocalStorage
  | setSessionStorage
  | reload
  | verify
deriving DecidableEq

/-- Inputs `loadSession` reads from the outside world. -/
structure LoadEnv where
  fileExists : Bool
  fileData : SessionData
  now : ℤ
  verifyResult : Bool

/-- Result of `loadSession`: return value, the `this.session` field afterwards
(`none` at entry), and the browser effects that were issued. -/
structure LoadOutcome where
  result : Bool
  session : Option SessionData
  actions : List SessionAction
deriving DecidableEq

/-- `SessionManager.loadSession`: missing file → false; record older than 24h
(`sessionAge > maxAge`) → false; otherwise inject cookies, navigate, restore
both storages, reload, and verify — returning true (and caching the record in
`this.session`) only when `verifyLogin` reports logged in. -/
def loadSession (env : LoadEnv) : LoadOutcome :=
  if !env.fileExists then ⟨false, none, []⟩
  else
    let sessionAge := env.now - env.fileData.timestamp
    let maxAge : ℤ := 24 * 60 * 60 * 1000
    if sessionAge > maxAge then ⟨false, none, []⟩
    else
      let restoreActs :=
        (if env.fileData.cookies.length > 0 then [SessionAction.addCookies] else [])
          ++ [SessionAction.gotoFacebook, SessionAction.setLocalStorage,
              SessionAction.setSessionStorage, SessionAction.reload,
              SessionAction.verify]
      if env.verifyResult then ⟨true, some env.fileData, restoreActs⟩
      else ⟨false, none, restoreActs⟩

/-- C4: a stored record more than 24 hours old makes `loadSession` return false
with no state restored (no browser effects, `this.session` untouched); an
absent session file yields false the same way; and a true result occurs only
when login verification succeeded. -/
theorem loadSession_validity (env : LoadEnv) :
    (env.now - env.fileData.timestamp > 24 * 60 * 60 * 1000 →
      loadSession env = ⟨false, none, []⟩) ∧
    (env.fileExists = false → loadSession env = ⟨false, none, []⟩) ∧
    ((loadSession env).result = true → env.verifyResult = true) := by
  refine ⟨?_, ?_, ?_⟩
  · intro hage
    unfold loadSession
    split
    · rfl
    · rw [if_pos hage]
  · intro hfe
    unfold loadSession
    rw [if_pos (by simp [hfe])]
  · intro hres
    by_cases hv : env.verifyResult = true
    · exact hv
    · exfalso
      unfold loadSession at hres
      rw [if_neg hv] at hres
      split at hres
      · simp at hres
      · split at hres
        · simp [apply_ite LoadOutcome.result] at hres
        · simp [apply_ite LoadOutcome.result] at hres

/-- Witness for C4 at concrete environments: an expired record (25h old) and a
missing file are both rejected, and the only true outcome has verification. -/
theorem loadSession_validity_witness :
    loadSession ⟨true, ⟨[], [], [], "", 0, ""⟩, 90000000, true⟩ = ⟨false, none, []⟩ ∧
    loadSession ⟨false, ⟨[], [], [], "", 0, ""⟩, 0, true⟩ = ⟨false, none, []⟩ ∧
    (⟨true, ⟨[], [], [], "", 0, ""⟩, 1000, true⟩ : LoadEnv).verifyResult = true := by
  refine ⟨?_, ?_, ?_⟩
  · exact (loadSession_validity ⟨true, ⟨[], [], [], "", 0, ""⟩, 90000000, true⟩).1
      (by decide)
  · exact (loadSession_validity ⟨false, ⟨[], [], [], "", 0, ""⟩, 0, true⟩).2.1 rfl
  · exact (loadSession_validity ⟨true, ⟨[], [], [], "", 0, ""⟩, 1000, true⟩).2.2
      (by decide)

/-! ### GroupManager (src/lib/group-manager.ts) -/

/-- Per-group join record kept in `joinedGroups` / `failedGroups`. -/
structure GroupJoinResult where
  url : String
  success : Bool
  status : String
  message : String
  timestamp : String
deriving DecidableEq

/-- `checkGroupStatus` result. -/
structure GroupStatus where
  blocked : Bool
  reason : Option String
deriving DecidableEq

/-- `clickJoinButton` result. -/
structure ClickResult where
  success : Bool
  error : Option String
deriving DecidableEq

/-- `handleMembershipQuestions` result. -/
structure HandleQuestionsResult where
  success : Bool
  error : Option String
deriving DecidableEq

/-- UI effects the join flow can issue, in program order. -/
inductive JoinAction
  | scrollToJoin
  | clickJoin
  | clickSkip
  | fillAnswer (i : ℕ)
  | clickSubmit
deriving DecidableEq

/-- Page state the join flow observes.  The block indicators are the four
entries of `checkGroupStatus` (BLOCKS.blocked, BLOCKS.restricted, the
not-found text, the private-group text); member indicators are its four
already-a-member selectors; the eight join selectors are the three
`joinButton*` config entries plus the five pushed variants; `successVisible j
k` is visibility of the `k`-th join-confirmation indicator during poll
iteration `j`. -/
structure JoinPage where
  blockIndicatorVisible : ℕ → Bool
  mainVisible : Bool
  memberIndicatorVisible : ℕ → Bool
  joinSelectorVisible : ℕ → Bool
  questionsVisible : Bool
  skipVisible : Bool
  submitVisible : Bool
  altSubmitVisible : ℕ → Bool
  questionInputCount : ℕ
  successVisible : ℕ → ℕ → Bool

/-- The four block reasons of `checkGroupStatus`, in source order. -/
def blockReasons : List String :=
  ["Group is blocked or private", "Access restricted",
   "Group not found or deleted", "Private group - access denied"]

/-- First visible indicator's reason (`for (const indicator of blockIndicators)`). -/
def findBlockReason (vis : ℕ → Bool) : ℕ → List String → Option String
  | _, [] => none
  | i, r :: rs => if vis i then some r else findBlockReason vis (i + 1) rs

/-- `GroupManager.checkGroupStatus`: first visible block indicator wins; with
none visible the page must still show `[role="main"]` or it counts as blocked. -/
def checkGroupStatus (p : JoinPage) : GroupStatus :=
  match findBlockReason p.blockIndicatorVisible 0 blockReasons with
  | some r => { blocked := true, reason := some r }
  | none =>
      if p.mainVisible then { blocked := false, reason := none }
      else { blocked := true, reason := some "Group page failed to load" }

/-- `GroupManager.checkMembershipStatus`: member iff any of the four member
indicators is visible. -/
def checkMembershipStatus (p : JoinPage) : Bool :=
  (List.range 4).any p.memberIndicatorVisible

/-- `GroupManager.clickJoinButton`: scan the eight join selectors in order,
scroll to and click the first visible one. -/
def clickJoinButton (p : JoinPage) : ClickResult × List JoinAction :=
  match (List.range 8).find? p.joinSelectorVisible with
  | some _ => (⟨true, none⟩, [JoinAction.scrollToJoin, JoinAction.clickJoin])
  | none => (⟨false, some "Join button not found"⟩, [])

/-- `GroupManager.submitQuestions`: click the configured submit control, else
the first visible of the three alternative submit buttons, else fail. -/
def submitQuestions (p : JoinPage) : HandleQuestionsResult × List JoinAction :=
  if p.submitVisible then (⟨true, none⟩, [JoinAction.clickSubmit])
  else
    match (List.range 3).find? p.altSubmitVisible with
    | some _ => (⟨true, none⟩, [JoinAction.clickSubmit])
    | none => (⟨false, some "Submit button not found"⟩, [])

/-- `GroupManager.skipQuestions`: click the skip control when present,
otherwise fall back to submitting with empty answers. -/
def skipQuestions (p : JoinPage) : HandleQuestionsResult × List JoinAction :=
  if p.skipVisible then (⟨true, none⟩, [JoinAction.clickSkip])
  else submitQuestions p

/-- `GroupManager.answerQuestions`: with no inputs, go straight to submit;
otherwise fill every input and submit. -/
def answerQuestions (p : JoinPage) : HandleQuestionsResult × List JoinAction :=
  if p.questionInputCount = 0 then submitQuestions p
  else
    let sub := submitQuestions p
    (sub.1, (List.range p.questionInputCount).map JoinAction.fillAnswer ++ sub.2)

/-- `GroupManager.handleMembershipQuestions`: nothing to do unless the
questions card is visible; then skip or answer according to the option. -/
def handleMembershipQuestions (p : JoinPage) (skipQ : Bool) :
    HandleQuestionsResult × List JoinAction :=
  if !p.questionsVisible then (⟨true, none⟩, [])
  else if skipQ then skipQuestions p
  else answerQuestions p

/-- `GroupManager.waitForJoinConfirmation`: poll the four success indicators
while elapsed time is below `maxWaitTime`, sleeping `tickMs` between polls;
`fuel` bounds the recursion and is harmless whenever it exceeds the number of
polls the time bound allows. -/
def waitForJoinConfirmation (p : JoinPage) (maxWaitTime tickMs : ℕ) :
    ℕ → ℕ → ℕ → Bool
  | 0, _, _ => false
  | fuel + 1, j, elapsed =>
      if elapsed < maxWaitTime then
        if (List.range 4).any (p.successVisible j) then true
        else waitForJoinConfirmation p maxWaitTime tickMs fuel (j + 1) (elapsed + tickMs)
      else false

/-- The two result lists owned by a `GroupManager`. -/
structure GroupManagerState where
  joinedGroups : List GroupJoinResult
  failedGroups : List GroupJoinResult
deriving DecidableEq

/-- Join options (the `maxWaitTime` default is 30000 at the call site). -/
structure JoinGroupOptions where
  skipQuestions : Bool
  maxWaitTime : ℕ

/-- `GroupManager.joinGroup`: navigate, bail out as failed when the group is
blocked, short-circuit as success when already a member, then click join,
handle questions, and poll for confirmation — an unconfirmed join still counts
as success with status `pending_approval`. -/
def joinGroup (p : JoinPage) (st : GroupManagerState) (groupUrl : String)
    (opts : JoinGroupOptions) (nowIso : String) (tickMs fuel : ℕ) :
    GroupJoinResult × GroupManagerState × List JoinAction :=
  let base : GroupJoinResult :=
    { url := groupUrl, success := false, status := "pending", message := "",
      timestamp := nowIso }
  let gs := checkGroupStatus p
  if gs.blocked then
    let r := { base with
      status := "blocked",
      message := gs.reason.getD "Group is blocked or private" }
    (r, { st with failedGroups := st.failedGroups ++ [r] }, [])
  else if checkMembershipStatus p then
    let r := { base with
      success := true,
      status := "already_member",
      message := "Already a member of this group" }
    (r, { st with joinedGroups := st.joinedGroups ++ [r] }, [])
  else
    let click := clickJoinButton p
    if !click.1.success then
      let r := { base with
        status := "join_failed",
        message := click.1.error.getD "Join button not found" }
      (r, { st with failedGroups := st.failedGroups ++ [r] }, click.2)
    else
      let qres := handleMembershipQuestions p opts.skipQuestions
      if !qres.1.success then
        let r := { base with
          status := "questions_failed",
          message := qres.1.error.getD "Failed to handle membership questions" }
        (r, { st with failedGroups := st.failedGroups ++ [r] }, click.2 ++ qres.2)
      else
        if waitForJoinConfirmation p opts.maxWaitTime tickMs fuel 0 0 then
          let r := { base with
            success := true,
            status := "joined",
            message := "Successfully joined group" }
          (r, { st with joinedGroups := st.joinedGroups ++ [r] }, click.2 ++ qres.2)
        else
          let r := { base with
            success := true,
            status := "pending_approval",
            message := "Join request submitted, awaiting approval" }
          (r, { st with joinedGroups := st.joinedGroups ++ [r] }, click.2 ++ qres.2)

/-! ### Lemmas about the join flow -/

theorem findBlockReason_none_invisible {vis : ℕ → Bool} :
    ∀ (rs : List String) (k : ℕ), findBlockReason vis k rs = none →
      ∀ j, j < rs.length → vis (k + j) = false := by
  intro rs
  induction rs with
  | nil => intro k _ j hj; simp at hj
  | cons r rs ih =>
      intro k h j hj
      unfold findBlockReason at h
      split at h
      · simp at h
      · next hv =>
          match j with
          | 0 => simpa using Bool.eq_false_iff.mpr hv
          | j + 1 =>
              have := ih (k + 1) h j (by simpa using hj)
              have harith : k + 1 + j = k + (j + 1) := by omega
              rwa [harith] at this

theorem findBlockReason_some_mem {vis : ℕ → Bool} :
    ∀ (rs : List String) (k : ℕ) (r : String),
      findBlockReason vis k rs = some r → r ∈ rs := by
  intro rs
  induction rs with
  | nil => intro k r h; simp [findBlockReason] at h
  | cons r0 rs ih =>
      intro k r h
      unfold findBlockReason at h
      split at h
      · simp at h
        simp [h]
      · exact List.mem_cons_of_mem r0 (ih (k + 1) r h)

theorem findBlockReason_all_false {vis : ℕ → Bool}
    (hvis : ∀ i, vis i = false) :
    ∀ (rs : List String) (k : ℕ), findBlockReason vis k rs = none := by
  intro rs
  induction rs with
  | nil => intro k; rfl
  | cons r rs ih => intro k; simp [findBlockReason, hvis k, ih]

theorem waitForJoinConfirmation_all_false {p : JoinPage}
    (hconf : ∀ j k, p.successVisible j k = false) (maxWaitTime tickMs : ℕ) :
    ∀ (fuel j elapsed : ℕ),
      waitForJoinConfirmation p maxWaitTime tickMs fuel j elapsed = false := by
  intro fuel
  induction fuel with
  | zero => intro j e; rfl
  | succ fuel ih =>
      intro j e
      unfold waitForJoinConfirmation
      split
      · have : (List.range 4).any (p.successVisible j) = false := by
          simp [List.any_eq_true, hconf]
        rw [this]
        simpa using ih (j + 1) (e + tickMs)
      · rfl

/-- C5: with a block indicator visible, `joinGroup` fails with status
`"blocked"` and a nonempty reason message, records the result on the failure
list (leaving the joined list untouched), and issues no UI action at all — in
particular it never resolves or clicks a join control. -/
theorem joinGroup_blocked (p : JoinPage) (st : GroupManagerState) (url : String)
    (opts : JoinGroupOptions) (nowIso : String) (tickMs fuel : ℕ)
    (hvis : (List.range blockReasons.length).any p.blockIndicatorVisible = true) :
    (joinGroup p st url opts nowIso tickMs fuel).1.success = false ∧
    (joinGroup p st url opts nowIso tickMs fuel).1.status = "blocked" ∧
    (joinGroup p st url opts nowIso tickMs fuel).1.message ≠ "" ∧
    (joinGroup p st url opts nowIso tickMs fuel).2.1.failedGroups
      = st.failedGroups ++ [(joinGroup p st url opts nowIso tickMs fuel).1] ∧
    (joinGroup p st url opts nowIso tickMs fuel).2.1.joinedGroups
      = st.joinedGroups ∧
    (joinGroup p st url opts nowIso tickMs fuel).2.2 = [] := by
  cases hfb : findBlockReason p.blockIndicatorVisible 0 blockReasons with
  | none =>
      exfalso
      obtain ⟨i, hi, hvi⟩ := List.any_eq_true.mp hvis
      have := findBlockReason_none_invisible blockReasons 0 hfb i
        (by simpa using hi)
      simp at this
      rw [this] at hvi
      exact Bool.false_ne_true hvi
  | some r =>
      have hr : r ∈ blockReasons := findBlockReason_some_mem blockReasons 0 r hfb
      have hrne : r ≠ "" := by
        simp [blockReasons] at hr
        rcases hr with rfl | rfl | rfl | rfl <;> decide
      have hcg : checkGroupStatus p = { blocked := true, reason := some r } := by
        unfold checkGroupStatus
        rw [hfb]
      refine ⟨?_, ?_, ?_, ?_, ?_, ?_⟩ <;>
        simp [joinGroup, hcg, Option.getD, hrne]

/-- C6: with the group accessible, the user not yet a member, a join control
clicked and membership questions handled, but no success indicator ever
visible during the confirmation poll, `joinGroup` still succeeds with status
`"pending_approval"` and the result goes on the joined list, not the failure
list. -/
theorem joinGroup_pending_approval (p : JoinPage) (st : GroupManagerState)
    (url : String) (opts : JoinGroupOptions) (nowIso : String) (tickMs fuel : ℕ)
    (hblock : ∀ i, p.blockIndicatorVisible i = false)
    (hmain : p.mainVisible = true)
    (hmem : ∀ i, p.memberIndicatorVisible i = false)
    (hjoin : (List.range 8).any p.joinSelectorVisible = true)
    (hq : (handleMembershipQuestions p opts.skipQuestions).1.success = true)
    (hconf : ∀ j k, p.successVisible j k = false) :
    (joinGroup p st url opts nowIso tickMs fuel).1.success = true ∧
    (joinGroup p st url opts nowIso tickMs fuel).1.status = "pending_approval" ∧
    (joinGroup p st url opts nowIso tickMs fuel).2.1.joinedGroups
      = st.joinedGroups ++ [(joinGroup p st url opts nowIso tickMs fuel).1] ∧
    (joinGroup p st url opts nowIso tickMs fuel).2.1.failedGroups
      = st.failedGroups := by
  have hcg : checkGroupStatus p = { blocked := false, reason := none } := by
    unfold checkGroupStatus
    rw [findBlockReason_all_false hblock, hmain]
    rfl
  have hms : checkMembershipStatus p = false := by
    simp [checkMembershipStatus, List.any_eq_true, hmem]
  have hsome : ((List.range 8).find? p.joinSelectorVisible).isSome :=
    List.find?_isSome.mpr (List.any_eq_true.mp hjoin)
  obtain ⟨i, hi⟩ := Option.isSome_iff_exists.mp hsome
  have hcb : clickJoinButton p
      = (⟨true, none⟩, [JoinAction.scrollToJoin, JoinAction.clickJoin]) := by
    unfold clickJoinButton
    rw [hi]
  have hw : waitForJoinConfirmation p opts.maxWaitTime tickMs fuel 0 0 = false :=
    waitForJoinConfirmation_all_false hconf _ _ fuel 0 0
  refine ⟨?_, ?_, ?_, ?_⟩ <;>
    simp [joinGroup, hcg, hms, hcb, hq, hw]

/-- A page whose first block indicator is visible. -/
def pageBlocked : JoinPage :=
  { blockIndicatorVisible := fun i => i == 0, mainVisible := true,
    memberIndicatorVisible := fun _ => false, joinSelectorVisible := fun _ => false,
    questionsVisible := false, skipVisible := false, submitVisible := false,
    altSubmitVisible := fun _ => false, questionInputCount := 0,
    successVisible := fun _ _ => false }

/-- An accessible page with a visible join button, no questions, and no
confirmation indicator ever appearing. -/
def pageOpen : JoinPage :=
  { blockIndicatorVisible := fun _ => false, mainVisible := true,
    memberIndicatorVisible := fun _ => false, joinSelectorVisible := fun i => i == 0,
    questionsVisible := false, skipVisible := false, submitVisible := false,
    altSubmitVisible := fun _ => false, questionInputCount := 0,
    successVisible := fun _ _ => false }

/-- Witness for C5 at a concrete blocked page. -/
theorem joinGroup_blocked_witness :
    (joinGroup pageBlocked ⟨[], []⟩ "g" ⟨false, 30000⟩ "" 1000 31).1.success = false ∧
    (joinGroup pageBlocked ⟨[], []⟩ "g" ⟨false, 30000⟩ "" 1000 31).1.status = "blocked" ∧
    (joinGroup pageBlocked ⟨[], []⟩ "g" ⟨false, 30000⟩ "" 1000 31).1.message ≠ "" ∧
    (joinGroup pageBlocked ⟨[], []⟩ "g" ⟨false, 30000⟩ "" 1000 31).2.1.failedGroups
      = ([] : List GroupJoinResult)
        ++ [(joinGroup pageBlocked ⟨[], []⟩ "g" ⟨false, 30000⟩ "" 1000 31).1] ∧
    (joinGroup pageBlocked ⟨[], []⟩ "g" ⟨false, 30000⟩ "" 1000 31).2.1.joinedGroups
      = ([] : List GroupJoinResult) ∧
    (joinGroup pageBlocked ⟨[], []⟩ "g" ⟨false, 30000⟩ "" 1000 31).2.2 = [] :=
  joinGroup_blocked pageBlocked ⟨[], []⟩ "g" ⟨false, 30000⟩ "" 1000 31 (by decide)

/-- Witness for C6 at a concrete open page whose confirmation never appears. -/
theorem joinGroup_pending_approval_witness :
    (joinGroup pageOpen ⟨[], []⟩ "g" ⟨false, 30000⟩ "" 1000 31).1.success = true ∧
    (joinGroup pageOpen ⟨[], []⟩ "g" ⟨false, 30000⟩ "" 1000 31).1.status
      = "pending_approval" ∧
    (joinGroup pageOpen ⟨[], []⟩ "g" ⟨false, 30000⟩ "" 1000 31).2.1.joinedGroups
      = ([] : List GroupJoinResult)
        ++ [(joinGroup pageOpen ⟨[], []⟩ "g" ⟨false, 30000⟩ "" 1000 31).1] ∧
    (joinGroup pageOpen ⟨[], []⟩ "g" ⟨false, 30000⟩ "" 1000 31).2.1.failedGroups
      = ([] : List GroupJoinResult) :=
  joinGroup_pending_approval pageOpen ⟨[], []⟩ "g" ⟨false, 30000⟩ "" 1000 31
    (fun _ => rfl) rfl (fun _ => rfl) (by decide) rfl (fun _ _ => rfl)

/-! ### FacebookAutomation orchestrator (main script) -/

/-- Run statistics owned by the orchestrator. -/
structure Stats where
  groupsJoined : ℕ
  postsCreated : ℕ
  errors : ℕ
  interventions : ℕ
deriving DecidableEq

/-- `FacebookAutomation.joinGroups` batch loop.  `stopRead i` is the value of
`this.shouldStop` read at the boundary before item `i`; `opOutcome i` is the
result record of `groupManager.joinGroup` for item `i` (`none` models the
call throwing, which the per-item catch turns into `errors++`).  Returns the
indices attempted, the operation results produced, and the final stats.  The
cooperative intervention wait that sits between the stop check and the
operation performs no state change and is modelled by `waitWhileFlag` below. -/
def joinGroupsLoop (stopRead : ℕ → Bool) (opOutcome : ℕ → Option GroupJoinResult) :
    List String → ℕ → Stats → List ℕ × List GroupJoinResult × Stats
  | [], _, stats => ([], [], stats)
  | _ :: rest, i, stats =>
      if stopRead i then ([], [], stats)
      else
        match opOutcome i with
        | some r =>
            let stats2 :=
              if r.success then { stats with groupsJoined := stats.groupsJoined + 1 }
              else { stats with errors := stats.errors + 1 }
            let rec2 := joinGroupsLoop stopRead opOutcome rest (i + 1) stats2
            (i :: rec2.1, r :: rec2.2.1, rec2.2.2)
        | none =>
            let rec2 := joinGroupsLoop stopRead opOutcome rest (i + 1)
              { stats with errors := stats.errors + 1 }
            (i :: rec2.1, rec2.2.1, rec2.2.2)

theorem joinGroupsLoop_go (stopRead : ℕ → Bool)
    (opOutcome : ℕ → Option GroupJoinResult) (res : ℕ → GroupJoinResult) (k : ℕ)
    (hat : stopRead k = true) :
    ∀ (urls : List String) (i : ℕ) (stats : Stats),
      i ≤ k → k < i + urls.length →
      (∀ j, i ≤ j → j < k → stopRead j = false) →
      (∀ j, i ≤ j → j < k → opOutcome j = some (res j)) →
      (joinGroupsLoop stopRead opOutcome urls i stats).1
          = (List.range (k - i)).map (fun t => i + t) ∧
      (joinGroupsLoop stopRead opOutcome urls i stats).2.1
          = (List.range (k - i)).map (fun t => res (i + t)) := by
  intro urls
  induction urls with
  | nil => intro i stats hik hlen _ _; simp at hlen; omega
  | cons u rest ih =>
      intro i stats hik hlen hbefore hres
      rcases eq_or_lt_of_le hik with rfl | hlt
      · simp [joinGroupsLoop, hat]
      · have hsi : stopRead i = false := hbefore i le_rfl hlt
        have hoi : opOutcome i = some (res i) := hres i le_rfl hlt
        have hih := ih (i + 1) (if (res i).success then
            { stats with groupsJoined := stats.groupsJoined + 1 }
          else { stats with errors := stats.errors + 1 })
          (by omega) (by simp only [List.length_cons] at hlen; omega)
          (fun j h1 h2 => hbefore j (by omega) h2)
          (fun j h1 h2 => hres j (by omega) h2)
        obtain ⟨m, hm⟩ : ∃ m, k - i = m + 1 := ⟨k - i - 1, by omega⟩
        have hm2 : k - (i + 1) = m := by omega
        rw [hm2] at hih
        have hrange : List.range (k - i) = 0 :: (List.range m).map Nat.succ := by
          rw [hm]
          exact List.range_succ_eq_map m
        refine ⟨?_, ?_⟩
        · simp only [joinGroupsLoop, hsi, Bool.false_eq_true, if_false, hoi]
          rw [hrange]
          simp only [List.map_cons, List.map_map, hih.1]
          refine congrArg₂ (· :: ·) (by omega) ?_
          apply List.map_congr_left
          intro t _
          simp only [Function.comp_apply]
          omega
        · simp only [joinGroupsLoop, hsi, Bool.false_eq_true, if_false, hoi]
          rw [hrange]
          simp only [List.map_cons, List.map_map, hih.2]
          refine congrArg₂ (· :: ·) (congrArg res (by omega)) ?_
          apply List.map_congr_left
          intro t _
          simp only [Function.comp_apply]
          exact congrArg res (by omega)

/-- Post payload (`PostData`). -/
structure PostData where
  message : String
  imagePaths : List String
  groupUrl : String
deriving DecidableEq

/-- Per-post record kept in `createdPosts` / `failedPosts`. -/
structure PostResult where
  success : Bool
  message : String
  timestamp : String
  postData : PostData
  error : Option String
deriving DecidableEq

/-- `FacebookAutomation.createPosts` batch loop, same shape as
`joinGroupsLoop` with the `postsCreated` counter. -/
def createPostsLoop (stopRead : ℕ → Bool) (opOutcome : ℕ → Option PostResult) :
    List String → ℕ → Stats → List ℕ × List PostResult × Stats
  | [], _, stats => ([], [], stats)
  | _ :: rest, i, stats =>
      if stopRead i then ([], [], stats)
      else
        match opOutcome i with
        | some r =>
            let stats2 :=
              if r.success then { stats with postsCreated := stats.postsCreated + 1 }
              else { stats with errors := stats.errors + 1 }
            let rec2 := createPostsLoop stopRead opOutcome rest (i + 1) stats2
            (i :: rec2.1, r :: rec2.2.1, rec2.2.2)
        | none =>
            let rec2 := createPostsLoop stopRead opOutcome rest (i + 1)
              { stats with errors := stats.errors + 1 }
            (i :: rec2.1, rec2.2.1, rec2.2.2)

theorem createPostsLoop_go (stopRead : ℕ → Bool)
    (opOutcome : ℕ → Option PostResult) (res : ℕ → PostResult) (k : ℕ)
    (hat : stopRead k = true) :
    ∀ (urls : List String) (i : ℕ) (stats : Stats),
      i ≤ k → k < i + urls.length →
      (∀ j, i ≤ j → j < k → stopRead j = false) →
      (∀ j, i ≤ j → j < k → opOutcome j = some (res j)) →
      (createPostsLoop stopRead opOutcome urls i stats).1
          = (List.range (k - i)).map (fun t => i + t) ∧
      (createPostsLoop stopRead opOutcome urls i stats).2.1
          = (List.range (k - i)).map (fun t => res (i + t)) := by
  intro urls
  induction urls with
  | nil => intro i stats hik hlen _ _; simp at hlen; omega
  | cons u rest ih =>
      intro i stats hik hlen hbefore hres
      rcases eq_or_lt_of_le hik with rfl | hlt
      · simp [createPostsLoop, hat]
      · have hsi : stopRead i = false := hbefore i le_rfl hlt
        have hoi : opOutcome i = some (res i) := hres i le_rfl hlt
        have hih := ih (i + 1) (if (res i).success then
            { stats with postsCreated := stats.postsCreated + 1 }
          else { stats with errors := stats.errors + 1 })
          (by omega) (by simp only [List.length_cons] at hlen; omega)
          (fun j h1 h2 => hbefore j (by omega) h2)
          (fun j h1 h2 => hres j (by omega) h2)
        obtain ⟨m, hm⟩ : ∃ m, k - i = m + 1 := ⟨k - i - 1, by omega⟩
        have hm2 : k - (i + 1) = m := by omega
        rw [hm2] at hih
        have hrange : List.range (k - i) = 0 :: (List.range m).map Nat.succ := by
          rw [hm]
          exact List.range_succ_eq_map m
        refine ⟨?_, ?_⟩
        · simp only [createPostsLoop, hsi, Bool.false_eq_true, if_false, hoi]
          rw [hrange]
          simp only [List.map_cons, List.map_map, hih.1]
          refine congrArg₂ (· :: ·) (by omega) ?_
          apply List.map_congr_left
          intro t _
          simp only [Function.comp_apply]
          omega
        · simp only [createPostsLoop, hsi, Bool.false_eq_true, if_false, hoi]
          rw [hrange]
          simp only [List.map_cons, List.map_map, hih.2]
          refine congrArg₂ (· :: ·) (congrArg res (by omega)) ?_
          apply List.map_congr_left
          intro t _
          simp only [Function.comp_apply]
          exact congrArg res (by omega)

/-- C7: with the stop signal first observed set at the boundary after item `k`
completes (`k < n`), both batch loops attempt exactly the items `0..k-1`,
produce exactly the `k` completed operation results unchanged, and touch no
later item; the stop flag is consulted only at these item boundaries. -/
theorem batch_loops_stop_after_k (k : ℕ) (urls purls : List String)
    (stopRead : ℕ → Bool)
    (opOutcome : ℕ → Option GroupJoinResult) (res : ℕ → GroupJoinResult)
    (postOutcome : ℕ → Option PostResult) (pres : ℕ → PostResult)
    (stats pstats : Stats)
    (hk : k < urls.length) (hpk : k < purls.length)
    (hbefore : (List.range k).all (fun j => !stopRead j) = true)
    (hat : stopRead k = true)
    (hres : (List.range k).all (fun j => opOutcome j == some (res j)) = true)
    (hpres : (List.range k).all (fun j => postOutcome j == some (pres j)) = true) :
    (joinGroupsLoop stopRead opOutcome urls 0 stats).1 = List.range k ∧
    (joinGroupsLoop stopRead opOutcome urls 0 stats).2.1 = (List.range k).map res ∧
    (joinGroupsLoop stopRead opOutcome urls 0 stats).2.1.length = k ∧
    (createPostsLoop stopRead postOutcome purls 0 pstats).1 = List.range k ∧
    (createPostsLoop stopRead postOutcome purls 0 pstats).2.1
      = (List.range k).map pres ∧
    (createPostsLoop stopRead postOutcome purls 0 pstats).2.1.length = k := by
  have hb : ∀ j, 0 ≤ j → j < k → stopRead j = false := by
    intro j _ hj
    have := List.all_eq_true.mp hbefore j (List.mem_range.mpr hj)
    simpa using this
  have hr : ∀ j, 0 ≤ j → j < k → opOutcome j = some (res j) := by
    intro j _ hj
    have := List.all_eq_true.mp hres j (List.mem_range.mpr hj)
    simpa using this
  have hpr : ∀ j, 0 ≤ j → j < k → postOutcome j = some (pres j) := by
    intro j _ hj
    have := List.all_eq_true.mp hpres j (List.mem_range.mpr hj)
    simpa using this
  have h1 := joinGroupsLoop_go stopRead opOutcome res k hat urls 0 stats
    (Nat.zero_le k) (by omega) hb hr
  have h2 := createPostsLoop_go stopRead postOutcome pres k hat purls 0 pstats
    (Nat.zero_le k) (by omega) hb hpr
  refine ⟨?_, ?_, ?_, ?_, ?_, ?_⟩
  · simpa using h1.1
  · simpa using h1.2
  · rw [h1.2]; simp
  · simpa using h2.1
  · simpa using h2.2
  · rw [h2.2]; simp

/-- A sample successful join record. -/
def sampleJoinRes : GroupJoinResult :=
  { url := "u", success := true, status := "joined", message := "ok",
    timestamp := "t" }

/-- A sample successful post record. -/
def samplePostRes : PostResult :=
  { success := true, message := "posted", timestamp := "t",
    postData := { message := "m", imagePaths := [], groupUrl := "g" },
    error := none }

/-- Witness for C7: a batch of 5 items with the stop signal raised after item
2 completes yields exactly 2 results in both loops. -/
theorem batch_loops_stop_witness :
    (joinGroupsLoop (fun i => decide (2 ≤ i)) (fun _ => some sampleJoinRes)
        ["a", "b", "c", "d", "e"] 0 ⟨0, 0, 0, 0⟩).1 = List.range 2 ∧
    (joinGroupsLoop (fun i => decide (2 ≤ i)) (fun _ => some sampleJoinRes)
        ["a", "b", "c", "d", "e"] 0 ⟨0, 0, 0, 0⟩).2.1
      = (List.range 2).map (fun _ => sampleJoinRes) ∧
    (joinGroupsLoop (fun i => decide (2 ≤ i)) (fun _ => some sampleJoinRes)
        ["a", "b", "c", "d", "e"] 0 ⟨0, 0, 0, 0⟩).2.1.length = 2 ∧
    (createPostsLoop (fun i => decide (2 ≤ i)) (fun _ => some samplePostRes)
        ["a", "b", "c", "d", "e"] 0 ⟨0, 0, 0, 0⟩).1 = List.range 2 ∧
    (createPostsLoop (fun i => decide (2 ≤ i)) (fun _ => some samplePostRes)
        ["a", "b", "c", "d", "e"] 0 ⟨0, 0, 0, 0⟩).2.1
      = (List.range 2).map (fun _ => samplePostRes) ∧
    (createPostsLoop (fun i => decide (2 ≤ i)) (fun _ => some samplePostRes)
        ["a", "b", "c", "d", "e"] 0 ⟨0, 0, 0, 0⟩).2.1.length = 2 :=
  batch_loops_stop_after_k 2 ["a", "b", "c", "d", "e"] ["a", "b", "c", "d", "e"]
    (fun i => decide (2 ≤ i)) (fun _ => some sampleJoinRes) (fun _ => sampleJoinRes)
    (fun _ => some samplePostRes) (fun _ => samplePostRes) ⟨0, 0, 0, 0⟩ ⟨0, 0, 0, 0⟩
    (by decide) (by decide) (by decide) (by decide) (by decide) (by decide)

/-! ### AlertSystem intervention wait (src/lib/alert-system.ts) and the
orchestrator's cooperative wait -/

/-- Values of `getUserInput`'s declared type. -/
inductive UserInput
  | cont
  | stopCmd
  | nullInput
deriving DecidableEq

/-- `AlertSystem.getUserInput`: when the overlay can be checked and is gone it
returns continue; when the overlay is still present control falls through to
the final `return 'continue'`; when the page evaluation throws the catch also
returns continue.  `overlayCheck = none` models the throw. -/
def getUserInput (overlayCheck : Option Bool) : UserInput :=
  match overlayCheck with
  | some false => UserInput.cont
  | some true => UserInput.cont
  | none => UserInput.cont

/-- Outcome of the monitor's resolution wait: the resolved action, the elapsed
time in ms (ticks are the 1000 ms of `setTimeout(checkResolution, 1000)`),
and the `interventionRequired` flag afterwards. -/
structure ResolutionOutcome where
  action : String
  elapsedMs : ℕ
  interventionRequired : Bool
deriving DecidableEq

/-- `checkResolution` recursion: at each 1-second tick consult the user input;
`stop` and `continue` resolve and clear the flag, otherwise resolve as
`timeout` (also clearing the flag) once elapsed time exceeds
`interventionTimeout`, else re-arm the timer. -/
def checkResolution (inputs : ℕ → UserInput) (interventionTimeout : ℕ) :
    ℕ → ℕ → Option ResolutionOutcome
  | 0, _ => none
  | fuel + 1, t =>
      match inputs t with
      | UserInput.stopCmd => some ⟨"stop", 1000 * t, false⟩
      | UserInput.cont => some ⟨"continue", 1000 * t, false⟩
      | UserInput.nullInput =>
          if 1000 * t > interventionTimeout then some ⟨"timeout", 1000 * t, false⟩
          else checkResolution inputs interventionTimeout fuel (t + 1)

/-- `AlertSystem.waitForManualResolution`: low-priority alerts auto-continue
immediately with the flag cleared; all other priorities run the
`checkResolution` polling loop. -/
def waitForManualResolution (priority : String) (inputs : ℕ → UserInput)
    (interventionTimeout fuel : ℕ) : Option ResolutionOutcome :=
  if priority = "low" then some ⟨"continue", 0, false⟩
  else checkResolution inputs interventionTimeout fuel 0

/-- The orchestrator's per-item cooperative wait
(`while (alertSystem.isWaitingForIntervention()) await DELAYS.medium()`):
`flag t` is the value of `interventionRequired` observed at the orchestrator's
`t`-th poll; the item starts at the first poll observing the flag clear. -/
def waitWhileFlag (flag : ℕ → Bool) : ℕ → ℕ → Option ℕ
  | 0, _ => none
  | fuel + 1, t => if flag t then waitWhileFlag flag fuel (t + 1) else some t

theorem waitWhileFlag_first_clear (flag : ℕ → Bool) :
    ∀ (fuel t0 t : ℕ), waitWhileFlag flag fuel t0 = some t →
      flag t = false ∧ t0 ≤ t ∧ ∀ u, t0 ≤ u → u < t → flag u = true := by
  intro fuel
  induction fuel with
  | zero => intro t0 t h; simp [waitWhileFlag] at h
  | succ fuel ih =>
      intro t0 t h
      unfold waitWhileFlag at h
      split at h
      · next hf =>
          obtain ⟨h1, h2, h3⟩ := ih (t0 + 1) t h
          refine ⟨h1, by omega, ?_⟩
          intro u hu1 hu2
          rcases eq_or_lt_of_le hu1 with rfl | hlt
          · exact hf
          · exact h3 u (by omega) hu2
      · next hf =>
          obtain rfl : t0 = t := by simpa using h
          exact ⟨Bool.eq_false_iff.mpr hf, le_rfl, fun u hu1 hu2 => by omega⟩

theorem checkResolution_clears_flag (inputs : ℕ → UserInput) (timeout : ℕ) :
    ∀ (fuel t : ℕ) (out : ResolutionOutcome),
      checkResolution inputs timeout fuel t = some out →
      out.interventionRequired = false := by
  intro fuel
  induction fuel with
  | zero => intro t out h; simp [checkResolution] at h
  | succ fuel ih =>
      intro t out h
      unfold checkResolution at h
      split at h
      · cases h; rfl
      · cases h; rfl
      · split at h
        · cases h; rfl
        · exact ih (t + 1) out h

theorem checkResolution_fueled (inputs : ℕ → UserInput) (timeout : ℕ) :
    ∀ (fuel t : ℕ), timeout < 1000 * (t + fuel) →
      (checkResolution inputs timeout (fuel + 1) t).isSome = true := by
  intro fuel
  induction fuel with
  | zero =>
      intro t ht
      unfold checkResolution
      split
      · rfl
      · rfl
      · rw [if_pos (by omega)]
        rfl
  | succ fuel ih =>
      intro t ht
      unfold checkResolution
      split
      · rfl
      · rfl
      · split
        · rfl
        · exact ih (t + 1) (by omega)

/-- C8: the cooperative gating invariants.  The orchestrator's wait loop lets
an item start only at the first poll observing the intervention flag clear;
every resolution path of the monitor's wait (continue, stop, or timeout)
leaves the flag cleared; the monitor's wait always resolves once its polls
pass the configured timeout (no deadlock); with the source's `getUserInput`
(which continues on every path) the wait resolves at the very first tick with
zero elapsed time — within any configured intervention timeout — and an
already-cleared flag lets the orchestrator start the item with no wait. -/
theorem intervention_gating :
    (∀ (flag : ℕ → Bool) (fuel t : ℕ), waitWhileFlag flag fuel 0 = some t →
        flag t = false ∧ ∀ u, u < t → flag u = true) ∧
    (∀ (inputs : ℕ → UserInput) (timeout fuel t : ℕ) (out : ResolutionOutcome),
        checkResolution inputs timeout fuel t = some out →
          out.interventionRequired = false) ∧
    (∀ (inputs : ℕ → UserInput) (timeout fuel : ℕ), timeout < 1000 * fuel →
        (checkResolution inputs timeout (fuel + 1) 0).isSome = true) ∧
    (∀ (overlay : ℕ → Option Bool) (priority : String) (timeout fuel : ℕ),
        0 < fuel →
        waitForManualResolution priority (fun t => getUserInput (overlay t))
            timeout fuel = some ⟨"continue", 0, false⟩) ∧
    (∀ (flag : ℕ → Bool) (fuel : ℕ), 0 < fuel → (∀ u, flag u = false) →
        waitWhileFlag flag fuel 0 = some 0) := by
  refine ⟨?_, ?_, ?_, ?_, ?_⟩
  · intro flag fuel t h
    obtain ⟨h1, _, h3⟩ := waitWhileFlag_first_clear flag fuel 0 t h
    exact ⟨h1, fun u hu => h3 u (Nat.zero_le u) hu⟩
  · exact fun inputs timeout fuel t out h =>
      checkResolution_clears_flag inputs timeout fuel t out h
  · exact fun inputs timeout fuel h =>
      checkResolution_fueled inputs timeout fuel 0 (by omega)
  · intro overlay priority timeout fuel hf
    unfold waitForManualResolution
    split
    · rfl
    · match fuel, hf with
      | fuel + 1, _ =>
          unfold checkResolution
          cases hov : overlay 0 with
          | none => simp [getUserInput, hov]
          | some b => cases b <;> simp [getUserInput, hov]
  · intro flag fuel hf hclear
    match fuel, hf with
    | fuel + 1, _ =>
        unfold waitWhileFlag
        rw [hclear 0]
        simp

/-- Witness for C8 at concrete flags, inputs, and timeouts. -/
theorem intervention_gating_witness :
    (fun t => decide (t < 3)) 3 = false ∧
    (⟨"timeout", 2000, false⟩ : ResolutionOutcome).interventionRequired = false ∧
    (checkResolution (fun _ => UserInput.nullInput) 1500 (2 + 1) 0).isSome = true ∧
    waitForManualResolution "high" (fun t => getUserInput ((fun _ => some false) t))
        300000 5 = some ⟨"continue", 0, false⟩ ∧
    waitWhileFlag (fun _ => false) 5 0 = some 0 := by
  refine ⟨?_, ?_, ?_, ?_, ?_⟩
  · exact (intervention_gating.1 (fun t => decide (t < 3)) 10 3 (by decide)).1
  · exact intervention_gating.2.1 (fun _ => UserInput.nullInput) 1500 3 0
      ⟨"timeout", 2000, false⟩ (by decide)
  · exact intervention_gating.2.2.1 (fun _ => UserInput.nullInput) 1500 2 (by decide)
  · exact intervention_gating.2.2.2.1 (fun _ => some false) "high" 300000 5
      (by decide)
  · exact intervention_gating.2.2.2.2 (fun _ => false) 5 (by decide) (fun _ => rfl)

/-! ### Getter copy semantics (GroupManager.getJoinedGroups /
getFailedGroups, PostManager.getCreatedPosts / getFailedPosts) -/

/-- A tiny array heap: a reference is an index, dereferencing an invalid
reference yields the empty array. -/
def readArr {α : Type} (heap : List (List α)) (r : ℕ) : List α :=
  heap.getD r []

/-- Allocate a fresh array with the given contents, returning the new heap and
the fresh reference. -/
def allocArr {α : Type} (heap : List (List α)) (xs : List α) :
    List (List α) × ℕ :=
  (heap ++ [xs], heap.length)

/-- In-place mutation of the array behind a reference. -/
def writeArr {α : Type} (heap : List (List α)) (r : ℕ) (xs : List α) :
    List (List α) :=
  heap.set r xs

/-- `GroupManager.getJoinedGroups`: `return [...this.joinedGroups]` — a fresh
array spread-copied from the field's array. -/
def getJoinedGroups (heap : List (List GroupJoinResult)) (joinedRef : ℕ) :
    List (List GroupJoinResult) × ℕ :=
  allocArr heap (readArr heap joinedRef)

/-- `GroupManager.getFailedGroups`: `return [...this.failedGroups]`. -/
def getFailedGroups (heap : List (List GroupJoinResult)) (failedRef : ℕ) :
    List (List GroupJoinResult) × ℕ :=
  allocArr heap (readArr heap failedRef)

/-- `PostManager.getCreatedPosts`: `return [...this.createdPosts]`. -/
def getCreatedPosts (heap : List (List PostResult)) (createdRef : ℕ) :
    List (List PostResult) × ℕ :=
  allocArr heap (readArr heap createdRef)

/-- `PostManager.getFailedPosts`: `return [...this.failedPosts]`. -/
def getFailedPosts (heap : List (List PostResult)) (failedRef : ℕ) :
    List (List PostResult) × ℕ :=
  allocArr heap (readArr heap failedRef)

theorem allocArr_fresh {α : Type} (heap : List (List α)) (xs : List α)
    (r : ℕ) (hr : r < heap.length) :
    (allocArr heap xs).2 ≠ r ∧
    readArr (allocArr heap xs).1 (allocArr heap xs).2 = xs ∧
    readArr (allocArr heap xs).1 r = readArr heap r ∧
    ∀ ys, readArr (writeArr (allocArr heap xs).1 (allocArr heap xs).2 ys) r
      = readArr heap r := by
  refine ⟨by simp [allocArr]; omega, ?_, ?_, ?_⟩
  · simp [allocArr, readArr, List.getD_eq_getElem?_getD]
  · simp [allocArr, readArr, List.getD_eq_getElem?_getD,
      List.getElem?_append_left hr]
  · intro ys
    simp only [allocArr, writeArr, readArr, List.getD_eq_getElem?_getD]
    rw [List.getElem?_set_ne (by omega)]
    rw [List.getElem?_append_left hr]

/-- C9: each result-list getter returns a fresh spread copy: the returned
array is a new reference with the same contents, mutating it leaves the
manager's own array unchanged, and two successive calls with no intervening
operation yield equal lists.  (`getFailedGroups` and `getFailedPosts` have
the identical body and are covered alongside the two cited getters.) -/
theorem getters_return_fresh_copies (hg : List (List GroupJoinResult))
    (hp : List (List PostResult)) (rg rp : ℕ)
    (hrg : rg < hg.length) (hrp : rp < hp.length) :
    ((getJoinedGroups hg rg).2 ≠ rg ∧
     readArr (getJoinedGroups hg rg).1 (getJoinedGroups hg rg).2 = readArr hg rg ∧
     (∀ ys, readArr (writeArr (getJoinedGroups hg rg).1 (getJoinedGroups hg rg).2 ys) rg
        = readArr hg rg) ∧
     readArr (getJoinedGroups (getJoinedGroups hg rg).1 rg).1
         (getJoinedGroups (getJoinedGroups hg rg).1 rg).2
       = readArr (getJoinedGroups hg rg).1 (getJoinedGroups hg rg).2) ∧
    ((getFailedGroups hg rg).2 ≠ rg ∧
     (∀ ys, readArr (writeArr (getFailedGroups hg rg).1 (getFailedGroups hg rg).2 ys) rg
        = readArr hg rg)) ∧
    ((getCreatedPosts hp rp).2 ≠ rp ∧
     readArr (getCreatedPosts hp rp).1 (getCreatedPosts hp rp).2 = readArr hp rp ∧
     (∀ ys, readArr (writeArr (getCreatedPosts hp rp).1 (getCreatedPosts hp rp).2 ys) rp
        = readArr hp rp) ∧
     readArr (getCreatedPosts (getCreatedPosts hp rp).1 rp).1
         (getCreatedPosts (getCreatedPosts hp rp).1 rp).2
       = readArr (getCreatedPosts hp rp).1 (getCreatedPosts hp rp).2) ∧
    ((getFailedPosts hp rp).2 ≠ rp ∧
     (∀ ys, readArr (writeArr (getFailedPosts hp rp).1 (getFailedPosts hp rp).2 ys) rp
        = readArr hp rp)) := by
  obtain ⟨hg1, hg2, hg3, hg4⟩ := allocArr_fresh hg (readArr hg rg) rg hrg
  obtain ⟨hp1, hp2, hp3, hp4⟩ := allocArr_fresh hp (readArr hp rp) rp hrp
  have hrg2 : rg < (getJoinedGroups hg rg).1.length := by
    simp only [getJoinedGroups, allocArr, List.length_append, List.length_cons]
    omega
  have hrp2 : rp < (getCreatedPosts hp rp).1.length := by
    simp only [getCreatedPosts, allocArr, List.length_append, List.length_cons]
    omega
  obtain ⟨_, hg2b, _, _⟩ :=
    allocArr_fresh (getJoinedGroups hg rg).1
      (readArr (getJoinedGroups hg rg).1 rg) rg hrg2
  obtain ⟨_, hp2b, _, _⟩ :=
    allocArr_fresh (getCreatedPosts hp rp).1
      (readArr (getCreatedPosts hp rp).1 rp) rp hrp2
  refine ⟨⟨hg1, hg2, hg4, ?_⟩, ⟨hg1, hg4⟩, ⟨hp1, hp2, hp4, ?_⟩, ⟨hp1, hp4⟩⟩
  · simp only [getJoinedGroups] at hg2b ⊢
    rw [hg2b, hg3, hg2]
  · simp only [getCreatedPosts] at hp2b ⊢
    rw [hp2b, hp3, hp2]

/-- Witness for C9 on one-element heaps. -/
theorem getters_return_fresh_copies_witness :
    (getJoinedGroups [[sampleJoinRes]] 0).2 ≠ 0 ∧
    readArr (getJoinedGroups [[sampleJoinRes]] 0).1 (getJoinedGroups [[sampleJoinRes]] 0).2
      = readArr [[sampleJoinRes]] 0 ∧
    readArr (writeArr (getJoinedGroups [[sampleJoinRes]] 0).1
        (getJoinedGroups [[sampleJoinRes]] 0).2 []) 0 = readArr [[sampleJoinRes]] 0 ∧
    (getCreatedPosts [[samplePostRes]] 0).2 ≠ 0 ∧
    readArr (writeArr (getCreatedPosts [[samplePostRes]] 0).1
        (getCreatedPosts [[samplePostRes]] 0).2 []) 0 = readArr [[samplePostRes]] 0 := by
  have h := getters_return_fresh_copies [[sampleJoinRes]] [[samplePostRes]] 0 0
    (by decide) (by decide)
  exact ⟨h.1.1, h.1.2.1, h.1.2.2.1 [], h.2.2.1.1, h.2.2.1.2.2.1 []⟩
